import Mathlib

/-!
Shallow embedding of the VJ-MASTER-PIPELINE batch-caching orchestrator
(`batch_cache_from_csv_v002.py`, serialization part of `VJ_Pipeline_UI.py`).

Strings are Lean `String`s; Python string surgery (`s[:-n]`, `strip`,
`lower`, f-string zero padding) is embedded on the underlying character
lists.  The filesystem is a map from paths to an optional size
(`none` = file absent).  Time advances one tick per completion-detector
poll (one tick = one 0.5 s sleep of the source loop).
-/

namespace VJPipeline

/-! ### Python string primitives -/

/-- Decimal digit list of a natural number, most significant first,
mirroring Python's decimal formatting of a nonnegative int.  Structural
fuel (`n + 1` suffices) keeps the definition kernel-reducible. -/
def natDigitsAux : Nat → Nat → List Char
  | 0, _ => []
  | fuel + 1, n =>
    if n < 10 then [Nat.digitChar n]
    else natDigitsAux fuel (n / 10) ++ [Nat.digitChar (n % 10)]

def natDigits (n : Nat) : List Char := natDigitsAux (n + 1) n

/-- Left-pad a character list to width `w` with `c` (no-op when already
at least `w` long), as Python's width field does. -/
def leftPad (w : Nat) (c : Char) (l : List Char) : List Char :=
  List.replicate (w - l.length) c ++ l

/-- Embedding of the Python f-string `f'{f:04}'` on an int: total width 4,
zero filled; a negative number carries a leading minus sign inside the
width. -/
def pad4 (f : Int) : String :=
  if f < 0 then ⟨'-' :: leftPad 3 '0' (natDigits f.natAbs)⟩
  else ⟨leftPad 4 '0' (natDigits f.toNat)⟩

/-- Embedding of Python's slice `s[:-n]` for a positive literal `n`:
drop the last `n` characters (empty result when `s` is shorter). -/
def pyDropLast (s : String) (n : Nat) : String :=
  ⟨s.data.take (s.data.length - n)⟩

/-- Embedding of Python's `str.strip()`: remove leading and trailing
whitespace. -/
def pyStrip (s : String) : String :=
  ⟨((s.data.dropWhile Char.isWhitespace).reverse.dropWhile
      Char.isWhitespace).reverse⟩

/-- Embedding of Python's `str.lower()` on the ASCII identifiers used
here. -/
def pyLower (s : String) : String := ⟨s.data.map Char.toLower⟩

/-! ### Filesystem model and the completion-detector poll

`wait_for_cache_completion` checks `os.path.exists(p) and
os.path.getsize(p) > 0` for each per-frame path. -/

/-- Filesystem snapshot: path to size, `none` when the file is absent. -/
abbrev FS : Type := String → Option Nat

/-- Filesystem history: snapshot at each poll tick (one tick per 0.5 s
sleep of the polling loop). -/
abbrev FSeq : Type := Nat → FS

/-- `os.path.exists(p) and os.path.getsize(p) > 0`. -/
def cachedOk (fs : FS) (p : String) : Bool :=
  match fs p with
  | some sz => decide (0 < sz)
  | none => false

/-- `file_path + f'{f:04}' + file_extn`: the concrete per-frame path. -/
def framePath (pre : String) (f : Int) (ext : String) : String :=
  pre ++ pad4 f ++ ext

/-- Embedding of Python's `range(start_frame, end_frame + 1)` over ints. -/
def frameRange (s e : Int) : List Int :=
  (List.range (e + 1 - s).toNat).map (fun n : Nat => s + (n : Int))

/-- One poll of the completion detector: the sum over
`range(start_frame, end_frame + 1)` of the existence-and-nonempty test
(line 105-109 of the source). -/
def pollCount (fs : FS) (pre ext : String) (s e : Int) : Nat :=
  (frameRange s e).countP (fun f => cachedOk fs (framePath pre f ext))

/-- File-type selector and suffix stripping of
`wait_for_cache_completion` (lines 72-78): selector value `0` chooses the
`.bgeo.sc` sequence and strips the last 12 characters of the evaluated
output path; any other value chooses `.vdb` and strips the last 8. -/
def stripPath (raw : String) (filetype : Int) : String × String :=
  if filetype = 0 then (pyDropLast raw 12, ".bgeo.sc")
  else (pyDropLast raw 8, ".vdb")

/-! ### Node, scene and event model -/

/-- A file-cache node as the script reads it: presence of the `execute`
button parameter, the `sopoutput` parameter (absent ⇒ early return from
the wait), the `filetype` selector and the `f1`/`f2` frame range. -/
structure Node where
  hasExecute : Bool
  sopoutput : Option String
  filetype : Int
  f1 : Int
  f2 : Int
deriving DecidableEq, Repr

/-- A loaded scene: `hou.node(path)` lookup. -/
abbrev Scene : Type := String → Option Node

/-- Observable events of one run, in program order. -/
inductive Ev where
  | skipMissing (p : String)
  | skipNoButton (p : String)
  | trigger (p : String)
  | waitNoParm (p : String)
  | poll (p : String) (count : Nat)
  | sleep (ms : Nat)
  | waitReturn (p : String)
  | spawn (p : String)
  | join (p : String)
  | invalidMode (m : String)
  | loadScene (p : String)
  | loadFail (p : String)
  | exitProc (code : Nat)
  | sceneDone (p : String)
deriving DecidableEq, Repr

/-- The polling loop of `wait_for_cache_completion` (lines 100-117):
`cached_frames` starts at 0 and the loop body recomputes it from the
current filesystem snapshot, then sleeps 500 ms, while
`cached_frames < end_frame - start_frame`.  `fuel` bounds the number of
iterations we unfold; the returned flag is `false` when the loop has not
exited within `fuel` polls (the source would still be blocked).  Returns
(events, next time tick, finished). -/
def waitGoEv (p pre ext : String) (s e : Int) (fsSeq : FSeq) :
    Nat → Int → Nat → List Ev × Nat × Bool
  | 0, cached, t =>
    if cached < e - s then ([], t, false) else ([Ev.waitReturn p], t, true)
  | fuel + 1, cached, t =>
    if cached < e - s then
      let c := pollCount (fsSeq t) pre ext s e
      let r := waitGoEv p pre ext s e fsSeq fuel (c : Int) (t + 1)
      (Ev.poll p c :: Ev.sleep 500 :: r.1, r.2)
    else ([Ev.waitReturn p], t, true)

/-- `wait_for_cache_completion` (lines 64-117): a missing `sopoutput`
parameter prints an error and returns at once (no poll); otherwise the
evaluated path is stripped according to the file type and the polling
loop runs over `[f1, f2]`. -/
def waitEvents (p : String) (nd : Node) (fsSeq : FSeq) (fuel t : Nat) :
    List Ev × Nat × Bool :=
  match nd.sopoutput with
  | none => ([Ev.waitNoParm p], t, true)
  | some raw =>
    let pe := stripPath raw nd.filetype
    waitGoEv p pe.1 pe.2 nd.f1 nd.f2 fsSeq fuel 0 t

/-- `cache_file_nodes_sequential` (lines 45-61): per path, a missing
node or missing `execute` button is skipped with a warning; otherwise the
trigger is pressed and the completion wait runs to its return before the
next path is considered.  The flag is `false` when a wait did not finish
within `fuel` (the source loop would never reach the next unit). -/
def seqRun (scene : Scene) (fsSeq : FSeq) (fuel : Nat) :
    List String → Nat → List Ev × Nat × Bool
  | [], t => ([], t, true)
  | q :: rest, t =>
    match scene q with
    | none =>
      let r := seqRun scene fsSeq fuel rest t
      (Ev.skipMissing q :: r.1, r.2)
    | some nd =>
      if nd.hasExecute then
        let w := waitEvents q nd fsSeq fuel t
        if w.2.2 then
          let r := seqRun scene fsSeq fuel rest w.2.1
          (Ev.trigger q :: (w.1 ++ r.1), r.2)
        else (Ev.trigger q :: w.1, w.2.1, false)
      else
        let r := seqRun scene fsSeq fuel rest t
        (Ev.skipNoButton q :: r.1, r.2)

/-- Does `hou.node(q)` exist and carry the `execute` button? -/
def triggerable (scene : Scene) (q : String) : Bool :=
  match scene q with
  | some nd => nd.hasExecute
  | none => false

/-- First phase of `cache_file_nodes_parallel` (lines 124-137): per path
in order, skip (missing node / missing button) or start a thread that
presses the trigger. -/
def parSpawnEvs (scene : Scene) : List String → List Ev
  | [] => []
  | q :: rest =>
    match scene q with
    | none => Ev.skipMissing q :: parSpawnEvs scene rest
    | some nd =>
      (if nd.hasExecute then Ev.spawn q else Ev.skipNoButton q) ::
        parSpawnEvs scene rest

/-- `cache_file_nodes_parallel` (lines 120-141): spawn a trigger thread
per usable path, then join every started thread in order.  No completion
wait is performed in this mode. -/
def parRun (scene : Scene) (paths : List String) : List Ev :=
  parSpawnEvs scene paths ++ (paths.filter (triggerable scene)).map Ev.join

/-- The batch loop of `process_hip_file` (lines 149-155): dispatch each
`(execution_type, paths)` pair on the already-lowercased mode string; an
unrecognized mode prints an error and the loop moves on. -/
def runBatches (scene : Scene) (fsSeq : FSeq) (fuel : Nat) :
    List (String × List String) → Nat → List Ev × Nat × Bool
  | [], t => ([], t, true)
  | (m, ps) :: rest, t =>
    if m = "sequential" then
      let r := seqRun scene fsSeq fuel ps t
      if r.2.2 then
        let r2 := runBatches scene fsSeq fuel rest r.2.1
        (r.1 ++ r2.1, r2.2)
      else r
    else if m = "parallel" then
      let r2 := runBatches scene fsSeq fuel rest t
      (parRun scene ps ++ r2.1, r2.2)
    else
      let r2 := runBatches scene fsSeq fuel rest t
      (Ev.invalidMode m :: r2.1, r2.2)

/-- `process_hip_file` plus the `__main__` loop (lines 143-172): per hip
file in order, load it — a load failure is caught by the `except` block,
which prints the error and calls `sys.exit(1)`, ending the whole run —
then execute its batches and print the completion line.  `loadOk` tells
whether `hou.hipFile.load` succeeds for a path; `scenes` gives the node
graph of each hip file once loaded. -/
def mainRun (loadOk : String → Bool) (scenes : String → Scene)
    (fsSeq : FSeq) (fuel : Nat) :
    List (String × List (String × List String)) → Nat → List Ev
  | [], _ => []
  | (f, bs) :: rest, t =>
    if loadOk f then
      let r := runBatches (scenes f) fsSeq fuel bs t
      if r.2.2 then
        Ev.loadScene f :: r.1 ++ Ev.sceneDone f ::
          mainRun loadOk scenes fsSeq fuel rest r.2.1
      else Ev.loadScene f :: r.1
    else [Ev.loadFail f, Ev.exitProc 1]

/-! ### Interchange parsing (`read_csv`) and serialization (`save_csv`)

Both sides use a Python `dict` in insertion order whose values are lists
grown by `append`; `dictAppend` embeds `d.setdefault(k, []).append(v)`
(equivalently the `if k not in d: d[k] = []` / `d[k].append(v)` idiom). -/

def dictAppend {K V : Type} [DecidableEq K]
    (m : List (K × List V)) (k : K) (v : V) : List (K × List V) :=
  match m with
  | [] => [(k, [v])]
  | (k', vs) :: rest =>
    if k' = k then (k', vs ++ [v]) :: rest
    else (k', vs) :: dictAppend rest k v

/-- Keys of the insertion-ordered dict, in order. -/
def keysOf {K V : Type} (m : List (K × List V)) : List K := m.map (·.1)

/-- Lookup of the first (hence, under key uniqueness, the only) entry. -/
def lookupKey {K V : Type} [DecidableEq K] (k : K) :
    List (K × List V) → Option (List V)
  | [] => none
  | (k', vs) :: rest => if k' = k then some vs else lookupKey k rest

/-- The parsed job plan: hip file ↦ list of (mode, cache paths) batches,
in insertion order, exactly the shape of `hip_cache_map`. -/
abbrev JobMap : Type := List (String × List (String × List String))

/-- One `read_csv` loop step (lines 25-37): a row with fewer than 3
fields is recorded as a skipped-row warning and changes nothing; any
other row contributes the batch `(mode lowered, trimmed nonempty paths)`
under the trimmed hip path. -/
def readStep (st : JobMap × List (List String)) (row : List String) :
    JobMap × List (List String) :=
  if row.length < 3 then (st.1, st.2 ++ [row])
  else
    match row with
    | hip :: mode :: rest =>
      (dictAppend st.1 (pyStrip hip)
        (pyLower (pyStrip mode), (rest.map pyStrip).filter (· ≠ "")),
       st.2)
    | _ => st

/-- `read_csv` over the already-decoded rows: returns the job map and
the list of rows skipped with a warning. -/
def readCsv (rows : List (List String)) : JobMap × List (List String) :=
  rows.foldl readStep ([], [])

/-- One selected-table row of the UI: (hip file, rendering mode, cache
path). -/
abbrev Entry : Type := String × String × String

/-- The grouping loop of `MainUI.save_csv` (lines 640-650), from an
arbitrary starting dict: `data[(houdini_file, rendering_mode)]
.append(file_cache)` per table row in order. -/
def saveGroupFrom (m : List ((String × String) × List String)) :
    List Entry → List ((String × String) × List String)
  | [] => m
  | r :: rest => saveGroupFrom (dictAppend m (r.1, r.2.1) r.2.2) rest

/-- The grouped dict built by `save_csv` from the table rows. -/
def saveGroup (rows : List Entry) : List ((String × String) × List String) :=
  saveGroupFrom [] rows

/-- The emitted CSV rows (lines 657-658): one row per dict entry,
`[houdini_file, mode.lower(), *file_caches]`. -/
def saveRows (rows : List Entry) : List (List String) :=
  (saveGroup rows).map (fun kv => kv.1.1 :: pyLower kv.1.2 :: kv.2)

/-- The unit refs carried by a given (hip, mode) pair, in table order. -/
def unitsFor (p : String × String) (rows : List Entry) : List String :=
  (rows.filter (fun r => decide ((r.1, r.2.1) = p))).map (fun r => r.2.2)

/-! ### Trace observations -/

/-- The paths of the trigger events of a trace, in order. -/
def triggersOf (evs : List Ev) : List String :=
  evs.filterMap (fun x =>
    match x with
    | Ev.trigger q => some q
    | _ => none)

/-- The paths of the spawn events of a trace, in order. -/
def spawnsOf (evs : List Ev) : List String :=
  evs.filterMap (fun x =>
    match x with
    | Ev.spawn q => some q
    | _ => none)

/-- The paths of the join events of a trace, in order. -/
def joinsOf (evs : List Ev) : List String :=
  evs.filterMap (fun x =>
    match x with
    | Ev.join q => some q
    | _ => none)

/-- The poll counts recorded in a trace, in order. -/
def pollsOf (evs : List Ev) : List Nat :=
  evs.filterMap (fun x =>
    match x with
    | Ev.poll _ c => some c
    | _ => none)

/-- No trigger event occurs in the list. -/
def noTrigEvs (w : List Ev) : Prop := ∀ x ∈ w, ∀ c, x ≠ Ev.trigger c

/-- The list is a completed wait for `q`: it ends with the normal return
event, or it is the early return of a missing `sopoutput` parameter. -/
def retEvs (q : String) (w : List Ev) : Prop :=
  (∃ w', w = w' ++ [Ev.waitReturn q]) ∨ w = [Ev.waitNoParm q]

/-- Shape invariant of a sequential-batch trace: a sequence of
non-trigger warnings and per-unit blocks, where every block except
possibly a final stuck one is a trigger followed by a completed wait. -/
inductive SeqShape : List Ev → Prop where
  | nil : SeqShape []
  | skip (x : Ev) (rest : List Ev) (hx : ∀ c, x ≠ Ev.trigger c)
      (h : SeqShape rest) : SeqShape (x :: rest)
  | stuck (q : String) (w : List Ev) (hw : noTrigEvs w) :
      SeqShape (Ev.trigger q :: w)
  | unit (q : String) (w rest : List Ev) (hw : noTrigEvs w)
      (hr : retEvs q w) (h : SeqShape rest) :
      SeqShape (Ev.trigger q :: (w ++ rest))

/-! ### Concrete fixtures used by witnesses and counterexamples -/

/-- A filesystem history in which no file ever exists. -/
def cFseqEmpty : FSeq := fun _ _ => none

/-- A filesystem in which every path exists with size 1. -/
def fsFull : FS := fun _ => some 1

/-- Load succeeds exactly for `b.hip`. -/
def cLoad1 : String → Bool := fun f => decide (f = "b.hip")

/-- Scene map with no nodes at all. -/
def cScenes0 : String → Scene := fun _ _ => none

/-- A usable cache node producing a `.bgeo.sc` sequence over frames
1 to 3. -/
def nodeA : Node :=
  { hasExecute := true, sopoutput := some ("geo." ++ pad4 1 ++ ".bgeo.sc"),
    filetype := 0, f1 := 1, f2 := 3 }

/-- Scene holding `nodeA` at `/a` and `/b`. -/
def cScene2 : Scene := fun q =>
  if q = "/a" ∨ q = "/b" then some nodeA else none

/-- A node with an `execute` button but no `sopoutput` parameter. -/
def nodeNP : Node :=
  { hasExecute := true, sopoutput := none, filetype := 0, f1 := 1, f2 := 5 }

/-- Scene holding `nodeNP` at `/a` and `/b`. -/
def sceneNP : Scene := fun q =>
  if q = "/a" ∨ q = "/b" then some nodeNP else none

/-- Frames 1001-1004 of the `c.` sequence exist non-empty; frame 1005 is
absent.  Everything else exists with size 1. -/
def fsC4 : FS := fun p =>
  if p = framePath "c." 1005 ".bgeo.sc" then none else some 1

/-- Static history of `fsC4`. -/
def fseqC4 : FSeq := fun _ => fsC4

/-! ### Decimal padding lemmas -/

theorem natDigitsAux_length : ∀ (fuel n k : Nat), n < fuel → n < 10 ^ k →
    1 ≤ k → (natDigitsAux fuel n).length ≤ k := by
  intro fuel
  induction fuel with
  | zero => intro n k h _ _; omega
  | succ fuel ih =>
    intro n k hfuel hpow hk
    by_cases h10 : n < 10
    · simpa [natDigitsAux, h10] using hk
    · have hrec : n / 10 < fuel := by
        have h1 : n / 10 < n := Nat.div_lt_self (by omega) (by omega)
        omega
      have hk2 : 2 ≤ k := by
        by_contra hlt
        have hk1 : k = 1 := by omega
        subst hk1
        simp [pow_one] at hpow
        omega
      have hpow10 : 10 ^ (k - 1) * 10 = 10 ^ k := by
        rw [← pow_succ]
        congr 1
        omega
      have hpow' : n / 10 < 10 ^ (k - 1) := by
        rw [Nat.div_lt_iff_lt_mul (by norm_num : (0 : ℕ) < 10)]
        omega
      have hlen := ih (n / 10) (k - 1) hrec hpow' (by omega)
      simp only [natDigitsAux, if_neg h10, List.length_append,
        List.length_singleton]
      omega

theorem pad4_length (f : Int) (h0 : 0 ≤ f) (h : f < 10000) :
    (pad4 f).data.length = 4 := by
  have hpow : f.toNat < 10 ^ 4 := by
    have h4 : (10 : ℕ) ^ 4 = 10000 := by norm_num
    omega
  have hnl : (natDigits f.toNat).length ≤ 4 :=
    natDigitsAux_length (f.toNat + 1) f.toNat 4 (by omega) hpow (by norm_num)
  rw [pad4, if_neg (by omega : ¬ f < 0)]
  show (leftPad 4 '0' (natDigits f.toNat)).length = 4
  rw [leftPad, List.length_append, List.length_replicate]
  omega

theorem pyDropLast_append (a b : String) :
    pyDropLast (a ++ b) b.data.length = a := by
  apply String.ext
  show (a ++ b).data.take ((a ++ b).data.length - b.data.length) = a.data
  rw [String.data_append, List.length_append]
  have hl : a.data.length + b.data.length - b.data.length = a.data.length := by
    omega
  rw [hl, List.take_left]

/-- C8: the file-type selector maps 0 to extension `.bgeo.sc` and any
other value to `.vdb`; the fixed 12-character (bgeo.sc) or 8-character
(vdb) suffix is stripped from the raw output path, and when the raw path
ends in a 4-digit zero-padded frame number plus the extension the strip
recovers the prefix, so that every per-frame path is the prefix followed
by the zero-padded frame number and the extension. -/
theorem c8_file_type_selector (raw base : String) (ft k f : Int)
    (hk0 : 0 ≤ k) (hk : k < 10000) :
    stripPath raw 0 = (pyDropLast raw 12, ".bgeo.sc") ∧
    (ft ≠ 0 → stripPath raw ft = (pyDropLast raw 8, ".vdb")) ∧
    (raw = base ++ pad4 k ++ ".bgeo.sc" →
      (stripPath raw 0).1 = base ∧
      framePath (stripPath raw 0).1 f ".bgeo.sc" =
        base ++ pad4 f ++ ".bgeo.sc") ∧
    (ft ≠ 0 → raw = base ++ pad4 k ++ ".vdb" →
      (stripPath raw ft).1 = base ∧
      framePath (stripPath raw ft).1 f ".vdb" = base ++ pad4 f ++ ".vdb") := by
  have hlen : (pad4 k).data.length = 4 := pad4_length k hk0 hk
  have hb : (pad4 k ++ (".bgeo.sc" : String)).data.length = 12 := by
    rw [String.data_append, List.length_append, hlen]
    rfl
  have hv : (pad4 k ++ (".vdb" : String)).data.length = 8 := by
    rw [String.data_append, List.length_append, hlen]
    rfl
  refine ⟨by simp [stripPath], fun hft => by simp [stripPath, hft], ?_, ?_⟩
  · intro hraw
    have h1 : (stripPath raw 0).1 = base := by
      rw [hraw, String.append_assoc]
      show pyDropLast (base ++ (pad4 k ++ ".bgeo.sc")) 12 = base
      rw [← hb]
      exact pyDropLast_append base (pad4 k ++ ".bgeo.sc")
    exact ⟨h1, by rw [h1]; rfl⟩
  · intro hft hraw
    have h1 : (stripPath raw ft).1 = base := by
      rw [hraw, String.append_assoc]
      show (stripPath (base ++ (pad4 k ++ ".vdb")) ft).1 = base
      rw [stripPath, if_neg hft]
      show pyDropLast (base ++ (pad4 k ++ ".vdb")) 8 = base
      rw [← hv]
      exact pyDropLast_append base (pad4 k ++ ".vdb")
    exact ⟨h1, by rw [h1]; rfl⟩

/-- Witness for C8 at a concrete raw path `pig.0012.bgeo.sc`. -/
theorem c8_file_type_selector_witness :
    (stripPath ("pig." ++ pad4 12 ++ ".bgeo.sc") 0).1 = "pig." ∧
    framePath (stripPath ("pig." ++ pad4 12 ++ ".bgeo.sc") 0).1 7
      ".bgeo.sc" = "pig." ++ pad4 7 ++ ".bgeo.sc" :=
  (c8_file_type_selector ("pig." ++ pad4 12 ++ ".bgeo.sc") "pig." 1 12 7
    (by norm_num) (by norm_num)).2.2.1 rfl

/-! ### Completion-detector poll: C5 -/

theorem frameRange_mem (s e : Int) (h : s ≤ e) (f : Int) :
    f ∈ frameRange s e ↔ s ≤ f ∧ f ≤ e := by
  unfold frameRange
  simp only [List.mem_map, List.mem_range]
  constructor
  · rintro ⟨i, hi, rfl⟩
    omega
  · intro hf
    exact ⟨(f - s).toNat, by omega, by omega⟩

/-- C5: one poll of the completion detector counts exactly the frame
indices of `[s, e]` whose per-frame file exists with nonzero size, and
the count equals the inclusive frame count `e - s + 1` exactly when
every per-frame file exists and is non-empty. -/
theorem c5_poll_counts_frames (fs : FS) (pr ex : String) (s e : Int)
    (h : s ≤ e) :
    (∀ f : Int, f ∈ frameRange s e ↔ s ≤ f ∧ f ≤ e) ∧
    pollCount fs pr ex s e =
      ((frameRange s e).filter
        (fun f => cachedOk fs (framePath pr f ex))).length ∧
    (pollCount fs pr ex s e = (e - s + 1).toNat ↔
      ∀ f : Int, s ≤ f → f ≤ e → cachedOk fs (framePath pr f ex) = true) := by
  refine ⟨frameRange_mem s e h, List.countP_eq_length_filter _ _, ?_⟩
  have hlen : (frameRange s e).length = (e - s + 1).toNat := by
    unfold frameRange
    rw [List.length_map, List.length_range]
    omega
  rw [pollCount, ← hlen, List.countP_eq_length]
  constructor
  · intro hall f h1 h2
    exact hall f ((frameRange_mem s e h f).mpr ⟨h1, h2⟩)
  · intro hall f hf
    have := (frameRange_mem s e h f).mp hf
    exact hall f this.1 this.2

/-- Witness for C5: with every path present at size 1 over frames 1-3,
frame 2's file is observed complete. -/
theorem c5_poll_counts_frames_witness :
    cachedOk fsFull (framePath "c." 2 ".bgeo.sc") = true :=
  ((c5_poll_counts_frames fsFull "c." ".bgeo.sc" 1 3 (by norm_num)).2.2.mp
    (by decide)) 2 (by norm_num) (by norm_num)

/-! ### Wait-loop lemmas -/

theorem waitGoEv_mem (p pr ex : String) (s e : Int) (fsSeq : FSeq) :
    ∀ (fuel : Nat) (cached : Int) (t : Nat) (x : Ev),
      x ∈ (waitGoEv p pr ex s e fsSeq fuel cached t).1 →
      (∃ c, x = Ev.poll p c) ∨ x = Ev.sleep 500 ∨ x = Ev.waitReturn p := by
  intro fuel
  induction fuel with
  | zero =>
    intro cached t x hx
    by_cases hc : cached < e - s
    · simp [waitGoEv, hc] at hx
    · simp [waitGoEv, hc] at hx
      simp [hx]
  | succ fuel ih =>
    intro cached t x hx
    by_cases hc : cached < e - s
    · simp only [waitGoEv, if_pos hc, List.mem_cons] at hx
      rcases hx with rfl | rfl | hx
      · exact Or.inl ⟨_, rfl⟩
      · exact Or.inr (Or.inl rfl)
      · exact ih _ _ x hx
    · simp [waitGoEv, hc] at hx
      simp [hx]

theorem waitGoEv_finished (p pr ex : String) (s e : Int) (fsSeq : FSeq) :
    ∀ (fuel : Nat) (cached : Int) (t : Nat),
      (waitGoEv p pr ex s e fsSeq fuel cached t).2.2 = true →
      ∃ w, (waitGoEv p pr ex s e fsSeq fuel cached t).1 =
        w ++ [Ev.waitReturn p] := by
  intro fuel
  induction fuel with
  | zero =>
    intro cached t hfin
    by_cases hc : cached < e - s
    · simp [waitGoEv, hc] at hfin
    · exact ⟨[], by simp [waitGoEv, hc]⟩
  | succ fuel ih =>
    intro cached t hfin
    by_cases hc : cached < e - s
    · simp only [waitGoEv, if_pos hc] at hfin ⊢
      obtain ⟨w, hw⟩ := ih _ _ hfin
      exact ⟨Ev.poll p (pollCount (fsSeq t) pr ex s e) :: Ev.sleep 500 :: w,
        by simp [hw]⟩
    · exact ⟨[], by simp [waitGoEv, hc]⟩

theorem waitEvents_mem (q : String) (nd : Node) (fsSeq : FSeq)
    (fuel t : Nat) (x : Ev) (hx : x ∈ (waitEvents q nd fsSeq fuel t).1) :
    (∃ c, x = Ev.poll q c) ∨ x = Ev.sleep 500 ∨ x = Ev.waitReturn q ∨
      x = Ev.waitNoParm q := by
  rw [waitEvents] at hx
  cases hs : nd.sopoutput with
  | none =>
    rw [hs] at hx
    simp at hx
    exact Or.inr (Or.inr (Or.inr hx))
  | some raw =>
    rw [hs] at hx
    rcases waitGoEv_mem q _ _ nd.f1 nd.f2 fsSeq fuel 0 t x hx with h | h | h
    · exact Or.inl h
    · exact Or.inr (Or.inl h)
    · exact Or.inr (Or.inr (Or.inl h))

theorem waitEvents_noTrig (q : String) (nd : Node) (fsSeq : FSeq)
    (fuel t : Nat) : noTrigEvs (waitEvents q nd fsSeq fuel t).1 := by
  intro x hx c
  rcases waitEvents_mem q nd fsSeq fuel t x hx with ⟨d, rfl⟩ | rfl | rfl | rfl
    <;> simp

theorem waitEvents_ret (q : String) (nd : Node) (fsSeq : FSeq)
    (fuel t : Nat) (hfin : (waitEvents q nd fsSeq fuel t).2.2 = true) :
    retEvs q (waitEvents q nd fsSeq fuel t).1 := by
  cases hs : nd.sopoutput with
  | none =>
    rw [waitEvents, hs]
    exact Or.inr rfl
  | some raw =>
    rw [waitEvents, hs] at hfin ⊢
    exact Or.inl (waitGoEv_finished q _ _ nd.f1 nd.f2 fsSeq fuel 0 t hfin)

theorem waitEvents_triggersOf (q : String) (nd : Node) (fsSeq : FSeq)
    (fuel t : Nat) : triggersOf (waitEvents q nd fsSeq fuel t).1 = [] := by
  rw [triggersOf, List.filterMap_eq_nil_iff]
  intro x hx
  rcases waitEvents_mem q nd fsSeq fuel t x hx with ⟨d, rfl⟩ | rfl | rfl | rfl
    <;> rfl

/-- C4: the polling loop of `wait_for_cache_completion` at the failing
input: frame range 1001-1005 with frames 1001-1004 present non-empty and
frame 1005 absent.  The loop performs one poll, counts 4 completed
frames, and exits even though only 4 of the 5 expected files exist;
moreover for a one-frame range (7-7) the loop exits with zero polls even
though no file at all exists. -/
theorem c4_wait_loop_off_by_one :
    waitGoEv "/n" "c." ".bgeo.sc" 1001 1005 fseqC4 3 0 0 =
      ([Ev.poll "/n" 4, Ev.sleep 500, Ev.waitReturn "/n"], 1, true) ∧
    cachedOk (fseqC4 0) (framePath "c." 1005 ".bgeo.sc") = false ∧
    (4 : Nat) ≠ (1005 - 1001 + 1 : Int).toNat ∧
    waitGoEv "/n" "c." ".bgeo.sc" 7 7 cFseqEmpty 3 0 0 =
      ([Ev.waitReturn "/n"], 0, true) ∧
    pollCount (cFseqEmpty 0) "c." ".bgeo.sc" 7 7 = 0 := by
  refine ⟨by decide, by decide, by decide, by decide, by decide⟩

/-! ### Sequential execution: trace shape, trigger order -/

theorem triggersOf_nil : triggersOf [] = [] := rfl

theorem triggersOf_cons_trigger (q : String) (l : List Ev) :
    triggersOf (Ev.trigger q :: l) = q :: triggersOf l := rfl

theorem triggersOf_cons_other (x : Ev) (l : List Ev)
    (h : ∀ c, x ≠ Ev.trigger c) : triggersOf (x :: l) = triggersOf l := by
  cases x <;> first
    | rfl
    | exact absurd rfl (h _)

theorem triggersOf_append (a b : List Ev) :
    triggersOf (a ++ b) = triggersOf a ++ triggersOf b :=
  List.filterMap_append a b _

theorem seqRun_shape (scene : Scene) (fsSeq : FSeq) (fuel : Nat) :
    ∀ (ps : List String) (t : Nat),
      SeqShape (seqRun scene fsSeq fuel ps t).1 := by
  intro ps
  induction ps with
  | nil => intro t; exact SeqShape.nil
  | cons q rest ih =>
    intro t
    cases hs : scene q with
    | none =>
      simp only [seqRun, hs]
      exact SeqShape.skip _ _ (by intro c; simp) (ih t)
    | some nd =>
      by_cases hex : nd.hasExecute
      · by_cases hfin : (waitEvents q nd fsSeq fuel t).2.2 = true
        · simp only [seqRun, hs, hex, if_true, hfin]
          exact SeqShape.unit q _ _ (waitEvents_noTrig q nd fsSeq fuel t)
            (waitEvents_ret q nd fsSeq fuel t hfin) (ih _)
        · simp only [seqRun, hs, hex, if_true, hfin, if_false,
            Bool.false_eq_true]
          exact SeqShape.stuck q _ (waitEvents_noTrig q nd fsSeq fuel t)
      · simp only [seqRun, hs, hex]
        exact SeqShape.skip _ _ (by intro c; simp) (ih t)

theorem seqShape_sep {evs : List Ev} (h : SeqShape evs) :
    ∀ (l1 : List Ev) (a : String) (l2 : List Ev) (b : String) (l3 : List Ev),
      evs = l1 ++ Ev.trigger a :: (l2 ++ Ev.trigger b :: l3) →
      Ev.waitReturn a ∈ l2 ∨ Ev.waitNoParm a ∈ l2 := by
  induction h with
  | nil =>
    intro l1 a l2 b l3 heq
    exact absurd heq (by simp)
  | skip x rest hx hsub ih =>
    intro l1 a l2 b l3 heq
    cases l1 with
    | nil =>
      rw [List.nil_append] at heq
      injection heq with h1 h2
      exact absurd h1 (hx a)
    | cons y l1' =>
      rw [List.cons_append] at heq
      injection heq with h1 h2
      exact ih l1' a l2 b l3 h2
  | stuck q w hw =>
    intro l1 a l2 b l3 heq
    cases l1 with
    | nil =>
      rw [List.nil_append] at heq
      injection heq with h1 h2
      have hmem : Ev.trigger b ∈ w := by rw [h2]; simp
      exact absurd rfl (hw _ hmem b)
    | cons y l1' =>
      rw [List.cons_append] at heq
      injection heq with h1 h2
      have hmem : Ev.trigger a ∈ w := by rw [h2]; simp
      exact absurd rfl (hw _ hmem a)
  | unit q w rest hw hret hsub ih =>
    intro l1 a l2 b l3 heq
    cases l1 with
    | nil =>
      rw [List.nil_append] at heq
      injection heq with h1 h2
      have hqa : q = a := by injection h1
      subst hqa
      rcases List.append_eq_append_iff.mp h2 with ⟨m, hm1, hm2⟩ | ⟨c, hc1, hc2⟩
      · rcases hret with ⟨w', rfl⟩ | rfl
        · left
          rw [hm1]
          simp
        · right
          rw [hm1]
          simp
      · cases c with
        | nil =>
          have hwl : w = l2 := by simpa using hc1
          rcases hret with ⟨w', hw'⟩ | hw'
          · left
            rw [← hwl, hw']
            simp
          · right
            rw [← hwl, hw']
            simp
        | cons z c' =>
          rw [List.cons_append] at hc2
          injection hc2 with hz hl3
          have hmem : Ev.trigger b ∈ w := by rw [hc1, ← hz]; simp
          exact absurd rfl (hw _ hmem b)
    | cons y l1' =>
      rw [List.cons_append] at heq
      injection heq with h1 h2
      rcases List.append_eq_append_iff.mp h2 with ⟨m, hm1, hm2⟩ | ⟨c, hc1, hc2⟩
      · exact ih m a l2 b l3 hm2
      · cases c with
        | nil =>
          exact ih [] a l2 b l3 (by simpa using hc2.symm)
        | cons z c' =>
          rw [List.cons_append] at hc2
          injection hc2 with hz hl3
          have hmem : Ev.trigger a ∈ w := by rw [hc1, ← hz]; simp
          exact absurd rfl (hw _ hmem a)

theorem seqRun_triggers (scene : Scene) (fsSeq : FSeq) (fuel : Nat) :
    ∀ (ps : List String) (t : Nat),
      (∃ l, triggersOf (seqRun scene fsSeq fuel ps t).1 ++ l =
        ps.filter (triggerable scene)) ∧
      ((seqRun scene fsSeq fuel ps t).2.2 = true →
        triggersOf (seqRun scene fsSeq fuel ps t).1 =
          ps.filter (triggerable scene)) := by
  intro ps
  induction ps with
  | nil => exact fun t => ⟨⟨[], rfl⟩, fun _ => rfl⟩
  | cons q rest ih =>
    intro t
    cases hs : scene q with
    | none =>
      have htr : triggerable scene q = false := by simp [triggerable, hs]
      obtain ⟨⟨l, hl⟩, hfin⟩ := ih t
      constructor
      · refine ⟨l, ?_⟩
        simp only [seqRun, hs, List.filter_cons, htr, if_false,
          Bool.false_eq_true]
        rw [triggersOf_cons_other _ _ (by intro c; simp)]
        exact hl
      · intro hdone
        simp only [seqRun, hs] at hdone ⊢
        rw [triggersOf_cons_other _ _ (by intro c; simp),
          List.filter_cons, htr]
        simpa using hfin hdone
    | some nd =>
      by_cases hex : nd.hasExecute
      · have htr : triggerable scene q = true := by
          simp [triggerable, hs, hex]
        by_cases hfin : (waitEvents q nd fsSeq fuel t).2.2 = true
        · obtain ⟨⟨l, hl⟩, hfin2⟩ := ih (waitEvents q nd fsSeq fuel t).2.1
          constructor
          · refine ⟨l, ?_⟩
            simp only [seqRun, hs, hex, if_true, hfin]
            rw [triggersOf_cons_trigger, triggersOf_append,
              waitEvents_triggersOf, List.nil_append, List.filter_cons, htr]
            simpa using hl
          · intro hdone
            simp only [seqRun, hs, hex, if_true, hfin] at hdone ⊢
            rw [triggersOf_cons_trigger, triggersOf_append,
              waitEvents_triggersOf, List.nil_append, List.filter_cons, htr]
            simpa using hfin2 hdone
        · constructor
          · refine ⟨rest.filter (triggerable scene), ?_⟩
            simp only [seqRun, hs, hex, if_true, hfin, if_false,
              Bool.false_eq_true]
            rw [triggersOf_cons_trigger, waitEvents_triggersOf,
              List.filter_cons, htr]
            simp
          · intro hdone
            simp only [seqRun, hs, hex, if_true, hfin, if_false,
              Bool.false_eq_true] at hdone
      · have htr : triggerable scene q = false := by
          simp [triggerable, hs, hex]
        obtain ⟨⟨l, hl⟩, hfin⟩ := ih t
        constructor
        · refine ⟨l, ?_⟩
          simp only [seqRun, hs, hex, if_false, List.filter_cons, htr,
            Bool.false_eq_true]
          rw [triggersOf_cons_other _ _ (by intro c; simp)]
          exact hl
        · intro hdone
          simp only [seqRun, hs, hex, if_false, Bool.false_eq_true] at hdone ⊢
          rw [triggersOf_cons_other _ _ (by intro c; simp),
            List.filter_cons, htr]
          simpa using hfin (by simpa using hdone)

/-- C6: in a sequential batch the issued triggers form a prefix of the
usable unit list in exact input order (the full list when the run
completes), and between any two triggers of the trace there is a return
of the earlier unit's completion wait (its normal return, or the early
return taken when the output parameter is missing) — so no later unit is
triggered before the previous unit's wait has returned. -/
theorem c6_sequential_trigger_order (scene : Scene) (fsSeq : FSeq)
    (fuel : Nat) (ps : List String) (t : Nat) :
    (∃ l, triggersOf (seqRun scene fsSeq fuel ps t).1 ++ l =
      ps.filter (triggerable scene)) ∧
    ((seqRun scene fsSeq fuel ps t).2.2 = true →
      triggersOf (seqRun scene fsSeq fuel ps t).1 =
        ps.filter (triggerable scene)) ∧
    (∀ (l1 : List Ev) (a : String) (l2 : List Ev) (b : String)
      (l3 : List Ev),
      (seqRun scene fsSeq fuel ps t).1 =
        l1 ++ Ev.trigger a :: (l2 ++ Ev.trigger b :: l3) →
      Ev.waitReturn a ∈ l2 ∨ Ev.waitNoParm a ∈ l2) :=
  ⟨(seqRun_triggers scene fsSeq fuel ps t).1,
   (seqRun_triggers scene fsSeq fuel ps t).2,
   fun l1 a l2 b l3 heq =>
     seqShape_sep (seqRun_shape scene fsSeq fuel ps t) l1 a l2 b l3 heq⟩

/-- Witness for C6: in the two-unit sequential batch `/a`, `/b`, the
wait for `/a` returns inside the events separating the two triggers. -/
theorem c6_sequential_trigger_order_witness :
    Ev.waitReturn "/a" ∈ [Ev.waitNoParm "/a"] ∨
      Ev.waitNoParm "/a" ∈ [Ev.waitNoParm "/a"] :=
  (c6_sequential_trigger_order sceneNP cFseqEmpty 5 ["/a", "/b"] 0).2.2
    [] "/a" [Ev.waitNoParm "/a"] "/b" [Ev.waitNoParm "/b"] (by decide)

/-- C10: a unit whose node exists and has the `execute` button but lacks
the `sopoutput` parameter makes the completion wait return immediately:
no poll event is produced, no failure is recorded beyond the printed
warning, and in a sequential batch the trace continues with the next
unit at the same time tick (the next trigger is issued at once). -/
theorem c10_no_sopoutput_immediate_return (scene : Scene) (fsSeq : FSeq)
    (fuel : Nat) (q : String) (nd : Node) (rest : List String) (t : Nat)
    (h1 : scene q = some nd) (h2 : nd.hasExecute = true)
    (h3 : nd.sopoutput = none) :
    waitEvents q nd fsSeq fuel t = ([Ev.waitNoParm q], t, true) ∧
    (∀ c, Ev.poll q c ∉ (waitEvents q nd fsSeq fuel t).1) ∧
    (seqRun scene fsSeq fuel (q :: rest) t).1 =
      Ev.trigger q :: Ev.waitNoParm q ::
        (seqRun scene fsSeq fuel rest t).1 ∧
    (seqRun scene fsSeq fuel (q :: rest) t).2 =
      (seqRun scene fsSeq fuel rest t).2 := by
  have hw : waitEvents q nd fsSeq fuel t = ([Ev.waitNoParm q], t, true) := by
    rw [waitEvents, h3]
  refine ⟨hw, ?_, ?_, ?_⟩
  · intro c
    rw [hw]
    simp
  · simp [seqRun, h1, h2, hw]
  · simp [seqRun, h1, h2, hw]

/-- Witness for C10 at the concrete scene whose nodes lack `sopoutput`. -/
theorem c10_no_sopoutput_immediate_return_witness :
    (seqRun sceneNP cFseqEmpty 5 ["/a", "/b"] 0).1 =
      Ev.trigger "/a" :: Ev.waitNoParm "/a" ::
        (seqRun sceneNP cFseqEmpty 5 ["/b"] 0).1 :=
  (c10_no_sopoutput_immediate_return sceneNP cFseqEmpty 5 "/a" nodeNP
    ["/b"] 0 (by decide) rfl rfl).2.2.1

/-! ### Orchestrator: scene-load failure (C1) -/

/-- C1 counterexample: with two scene jobs where loading `a.hip` fails
and loading `b.hip` would succeed, the run emits only the load failure
and the process exit; the subsequent scene `b.hip` is never loaded, so a
load failure does abort the remaining scenes, contrary to the claim. -/
theorem c1_counterexample :
    cLoad1 "a.hip" = false ∧ cLoad1 "b.hip" = true ∧
    mainRun cLoad1 cScenes0 cFseqEmpty 5
      [("a.hip", [("sequential", ["/x"])]),
       ("b.hip", [("sequential", ["/x"])])] 0 =
      [Ev.loadFail "a.hip", Ev.exitProc 1] ∧
    Ev.loadScene "b.hip" ∉ mainRun cLoad1 cScenes0 cFseqEmpty 5
      [("a.hip", [("sequential", ["/x"])]),
       ("b.hip", [("sequential", ["/x"])])] 0 :=
  ⟨by decide, by decide, by decide, by decide⟩

/-- C1 amended: when loading a scene fails, `process_hip_file` catches
the exception, prints it and calls `sys.exit(1)`: the whole run ends
with exit code 1 and no subsequent scene is loaded or processed. -/
theorem c1_amended_load_failure_exits (loadOk : String → Bool)
    (scenes : String → Scene) (fsSeq : FSeq) (fuel : Nat) (f : String)
    (bs : List (String × List String))
    (rest : List (String × List (String × List String))) (t : Nat)
    (h : loadOk f = false) :
    mainRun loadOk scenes fsSeq fuel ((f, bs) :: rest) t =
      [Ev.loadFail f, Ev.exitProc 1] := by
  simp [mainRun, h]

/-- Witness for the amended C1 at the concrete failing load. -/
theorem c1_amended_load_failure_exits_witness :
    mainRun cLoad1 cScenes0 cFseqEmpty 5 [("a.hip", [])] 0 =
      [Ev.loadFail "a.hip", Ev.exitProc 1] :=
  c1_amended_load_failure_exits cLoad1 cScenes0 cFseqEmpty 5 "a.hip" [] []
    0 (by decide)

/-! ### Parallel batches (C2) -/

theorem parSpawnEvs_mem (scene : Scene) :
    ∀ (ps : List String) (x : Ev), x ∈ parSpawnEvs scene ps →
      (∃ q, x = Ev.skipMissing q) ∨ (∃ q, x = Ev.skipNoButton q) ∨
        (∃ q, x = Ev.spawn q) := by
  intro ps
  induction ps with
  | nil => intro x hx; simp [parSpawnEvs] at hx
  | cons q rest ih =>
    intro x hx
    cases hs : scene q with
    | none =>
      rw [parSpawnEvs, hs] at hx
      rcases List.mem_cons.mp hx with rfl | hx
      · exact Or.inl ⟨q, rfl⟩
      · exact ih x hx
    | some nd =>
      rw [parSpawnEvs, hs] at hx
      rcases List.mem_cons.mp hx with rfl | hx
      · by_cases hex : nd.hasExecute
        · exact Or.inr (Or.inr ⟨q, by simp [hex]⟩)
        · exact Or.inr (Or.inl ⟨q, by simp [hex]⟩)
      · exact ih x hx

theorem parSpawnEvs_spawns (scene : Scene) :
    ∀ ps : List String,
      spawnsOf (parSpawnEvs scene ps) = ps.filter (triggerable scene) := by
  intro ps
  induction ps with
  | nil => rfl
  | cons q rest ih =>
    cases hs : scene q with
    | none =>
      have htr : triggerable scene q = false := by simp [triggerable, hs]
      rw [parSpawnEvs, hs]
      simp only [spawnsOf, List.filterMap_cons, List.filter_cons, htr]
      simpa [spawnsOf] using ih
    | some nd =>
      have htr : triggerable scene q = nd.hasExecute := by
        simp [triggerable, hs]
      by_cases hex : nd.hasExecute
      · rw [parSpawnEvs, hs]
        simp only [hex, if_true, spawnsOf, List.filterMap_cons,
          List.filter_cons, htr]
        simpa [spawnsOf] using ih
      · rw [parSpawnEvs, hs]
        simp only [hex, if_false, spawnsOf, List.filterMap_cons,
          List.filter_cons, htr, Bool.false_eq_true]
        simpa [spawnsOf] using ih

theorem joinsOf_map_join : ∀ l : List String,
    joinsOf (l.map Ev.join) = l := by
  intro l
  induction l with
  | nil => rfl
  | cons q rest ih =>
    simp only [List.map_cons, joinsOf, List.filterMap_cons]
    simpa [joinsOf] using ih

theorem spawnsOf_map_join : ∀ l : List String,
    spawnsOf (l.map Ev.join) = [] := by
  intro l
  induction l with
  | nil => rfl
  | cons q rest ih =>
    simp only [List.map_cons, spawnsOf, List.filterMap_cons]
    simp only [spawnsOf] at ih
    exact ih

theorem joinsOf_parSpawnEvs (scene : Scene) (ps : List String) :
    joinsOf (parSpawnEvs scene ps) = [] := by
  rw [joinsOf, List.filterMap_eq_nil_iff]
  intro x hx
  rcases parSpawnEvs_mem scene ps x hx with ⟨q, rfl⟩ | ⟨q, rfl⟩ | ⟨q, rfl⟩
    <;> rfl

/-- C2 amended: a parallel batch spawns one trigger thread per usable
unit (skipped units — missing node or missing button — spawn nothing and
block nothing), and the batch is done exactly after joining every
spawned thread, the joins all following the spawn phase; the trace
contains no completion-detector event at all (no poll, no wait return),
so completion of a parallel batch never observes output frames on
disk. -/
theorem c2_amended_parallel_join (scene : Scene) (ps : List String) :
    spawnsOf (parRun scene ps) = ps.filter (triggerable scene) ∧
    joinsOf (parRun scene ps) = ps.filter (triggerable scene) ∧
    (∀ x ∈ parRun scene ps, (∀ p c, x ≠ Ev.poll p c) ∧
      (∀ p, x ≠ Ev.waitReturn p) ∧ (∀ p, x ≠ Ev.waitNoParm p)) ∧
    (∃ l, parRun scene ps =
        l ++ (ps.filter (triggerable scene)).map Ev.join ∧
      ∀ x ∈ l, ∀ p, x ≠ Ev.join p) := by
  refine ⟨?_, ?_, ?_, ?_⟩
  · rw [parRun, spawnsOf, List.filterMap_append]
    show spawnsOf (parSpawnEvs scene ps) ++
      spawnsOf ((ps.filter (triggerable scene)).map Ev.join) = _
    rw [parSpawnEvs_spawns, spawnsOf_map_join, List.append_nil]
  · rw [parRun, joinsOf, List.filterMap_append]
    show joinsOf (parSpawnEvs scene ps) ++
      joinsOf ((ps.filter (triggerable scene)).map Ev.join) = _
    rw [joinsOf_parSpawnEvs, joinsOf_map_join, List.nil_append]
  · intro x hx
    rcases List.mem_append.mp hx with hx | hx
    · rcases parSpawnEvs_mem scene ps x hx with ⟨q, rfl⟩ | ⟨q, rfl⟩ |
        ⟨q, rfl⟩ <;> exact ⟨fun p c => by simp, fun p => by simp,
        fun p => by simp⟩
    · obtain ⟨q, _, rfl⟩ := List.mem_map.mp hx
      exact ⟨fun p c => by simp, fun p => by simp, fun p => by simp⟩
  · refine ⟨parSpawnEvs scene ps, rfl, ?_⟩
    intro x hx p
    rcases parSpawnEvs_mem scene ps x hx with ⟨q, rfl⟩ | ⟨q, rfl⟩ | ⟨q, rfl⟩
      <;> simp

/-- Witness for the amended C2 at the concrete two-unit scene. -/
theorem c2_amended_parallel_join_witness :
    spawnsOf (parRun cScene2 ["/a", "/b"]) =
      ["/a", "/b"].filter (triggerable cScene2) :=
  (c2_amended_parallel_join cScene2 ["/a", "/b"]).1

/-- C2 counterexample: the parallel batch over `/a`, `/b` is reported
done (the batch loop terminates and moves on) while its trace holds only
spawn and join events — the completion detector never ran, no unit's
polling loop returned, and unit `/a`'s first expected output frame
`geo.0001.bgeo.sc` is absent from the (empty) filesystem. -/
theorem c2_counterexample :
    (runBatches cScene2 cFseqEmpty 5 [("parallel", ["/a", "/b"])] 0).2.2 =
      true ∧
    (runBatches cScene2 cFseqEmpty 5 [("parallel", ["/a", "/b"])] 0).1 =
      [Ev.spawn "/a", Ev.spawn "/b", Ev.join "/a", Ev.join "/b"] ∧
    (∀ x ∈ (runBatches cScene2 cFseqEmpty 5
        [("parallel", ["/a", "/b"])] 0).1,
      (∀ p c, x ≠ Ev.poll p c) ∧ (∀ p, x ≠ Ev.waitReturn p)) ∧
    nodeA.sopoutput = some ("geo." ++ pad4 1 ++ ".bgeo.sc") ∧
    stripPath ("geo." ++ pad4 1 ++ ".bgeo.sc") nodeA.filetype =
      ("geo.", ".bgeo.sc") ∧
    cachedOk (cFseqEmpty 0) (framePath "geo." 1 ".bgeo.sc") = false := by
  refine ⟨by decide, by decide, ?_, by decide, by decide, by decide⟩
  intro x hx
  have h2 : (runBatches cScene2 cFseqEmpty 5
      [("parallel", ["/a", "/b"])] 0).1 =
      [Ev.spawn "/a", Ev.spawn "/b", Ev.join "/a", Ev.join "/b"] := by
    decide
  rw [h2] at hx
  have hx' : x = Ev.spawn "/a" ∨ x = Ev.spawn "/b" ∨ x = Ev.join "/a" ∨
      x = Ev.join "/b" := by simpa using hx
  rcases hx' with rfl | rfl | rfl | rfl <;>
    exact ⟨fun p c => by simp, fun p => by simp⟩

/-! ### Interchange parsing: C7 and C3 -/

theorem readFold_fst_warns : ∀ (rows : List (List String)) (m : JobMap)
    (w w' : List (List String)),
    (rows.foldl readStep (m, w)).1 = (rows.foldl readStep (m, w')).1 := by
  intro rows
  induction rows with
  | nil => intro m w w'; rfl
  | cons r rest ih =>
    intro m w w'
    by_cases hr : r.length < 3
    · simp only [List.foldl_cons, readStep, if_pos hr]
      exact ih m (w ++ [r]) (w' ++ [r])
    · rcases r with _ | ⟨a, r1⟩
      · exact absurd (by simp) hr
      rcases r1 with _ | ⟨b, r2⟩
      · exact absurd (by simp) hr
      simp only [List.foldl_cons, readStep, if_neg hr]
      exact ih _ w w'

theorem readFold_fst_filter : ∀ (rows : List (List String)) (m : JobMap)
    (w : List (List String)),
    (rows.foldl readStep (m, w)).1 =
      ((rows.filter (fun r => decide (3 ≤ r.length))).foldl readStep
        (m, w)).1 := by
  intro rows
  induction rows with
  | nil => intro m w; rfl
  | cons r rest ih =>
    intro m w
    by_cases hr : r.length < 3
    · have hf : (decide (3 ≤ r.length)) = false := by
        simp
        omega
      simp only [List.foldl_cons, readStep, if_pos hr, List.filter_cons, hf,
        Bool.false_eq_true, if_false]
      rw [readFold_fst_warns rest m (w ++ [r]) w]
      exact ih m w
    · have hf : (decide (3 ≤ r.length)) = true := by
        simp
        omega
      rcases r with _ | ⟨a, r1⟩
      · exact absurd (by simp) hr
      rcases r1 with _ | ⟨b, r2⟩
      · exact absurd (by simp) hr
      simp only [List.foldl_cons, List.filter_cons, hf, if_true, readStep,
        if_neg hr]
      exact ih _ w

theorem readFold_snd : ∀ (rows : List (List String)) (m : JobMap)
    (w : List (List String)),
    (rows.foldl readStep (m, w)).2 =
      w ++ rows.filter (fun r => decide (r.length < 3)) := by
  intro rows
  induction rows with
  | nil => intro m w; simp
  | cons r rest ih =>
    intro m w
    by_cases hr : r.length < 3
    · have hf : (decide (r.length < 3)) = true := by simpa using hr
      simp only [List.foldl_cons, readStep, if_pos hr, List.filter_cons, hf,
        if_true]
      rw [ih _ (w ++ [r])]
      simp
    · have hf : (decide (r.length < 3)) = false := by simpa using hr
      rcases r with _ | ⟨a, r1⟩
      · exact absurd (by simp) hr
      rcases r1 with _ | ⟨b, r2⟩
      · exact absurd (by simp) hr
      simp only [List.foldl_cons, readStep, if_neg hr, List.filter_cons, hf,
        Bool.false_eq_true, if_false]
      exact ih _ w

/-- C7: rows with fewer than 3 fields are skipped and collected as
warnings, and the parsed job map is exactly the one obtained from the
remaining well-formed rows — the parse never fails on a short row. -/
theorem c7_short_rows_skipped (rows : List (List String)) :
    (readCsv rows).1 =
      (readCsv (rows.filter (fun r => decide (3 ≤ r.length)))).1 ∧
    (readCsv rows).2 = rows.filter (fun r => decide (r.length < 3)) :=
  ⟨readFold_fst_filter rows [] [],
   by simpa using readFold_snd rows [] []⟩

/-- C3 counterexample: the row `a.hip, Bogus, /x` parses successfully
and the parsed job map contains the batch with the unrecognized
(lowercased) mode `bogus` — parsing does not fail the row. -/
theorem c3_counterexample :
    (readCsv [["a.hip", "Bogus", "/x"]]).1 =
      [("a.hip", [("bogus", ["/x"])])] ∧
    ¬ ("bogus" = "sequential" ∨ "bogus" = "parallel") :=
  ⟨by decide, by decide⟩

/-- C3 amended: `read_csv` accepts any mode value, storing the batch
with the lowercased mode string; the unrecognized mode is detected only
at execution time, where `process_hip_file` reports an invalid execution
type, runs nothing for that batch (no trigger, no default coercion) and
continues with the remaining batches. -/
theorem c3_amended_mode_checked_at_execution (hip m0 p0 : String)
    (r3 : List String) (m : String) (ps : List String)
    (rest : List (String × List String)) (scene : Scene) (fsSeq : FSeq)
    (fuel t : Nat) (st : JobMap × List (List String))
    (h1 : m ≠ "sequential") (h2 : m ≠ "parallel") :
    readStep st (hip :: m0 :: p0 :: r3) =
      (dictAppend st.1 (pyStrip hip)
        (pyLower (pyStrip m0), ((p0 :: r3).map pyStrip).filter (· ≠ "")),
       st.2) ∧
    runBatches scene fsSeq fuel ((m, ps) :: rest) t =
      (Ev.invalidMode m :: (runBatches scene fsSeq fuel rest t).1,
       (runBatches scene fsSeq fuel rest t).2) := by
  constructor
  · rw [readStep, if_neg (by intro hcon; simp at hcon; omega)]
  · simp [runBatches, h1, h2]

/-- Witness for the amended C3 at mode `bogus`. -/
theorem c3_amended_mode_checked_at_execution_witness :
    runBatches cScene2 cFseqEmpty 5 [("bogus", ["/a"])] 0 =
      (Ev.invalidMode "bogus" :: (runBatches cScene2 cFseqEmpty 5 [] 0).1,
       (runBatches cScene2 cFseqEmpty 5 [] 0).2) :=
  (c3_amended_mode_checked_at_execution "a" "B" "/x" [] "bogus" ["/a"] []
    cScene2 cFseqEmpty 5 0 ([], []) (by decide) (by decide)).2

/-! ### Serialization grouping: C9 -/

theorem dictAppend_lookup_self {K V : Type} [DecidableEq K]
    (m : List (K × List V)) (k : K) (v : V) :
    lookupKey k (dictAppend m k v) =
      some ((lookupKey k m).getD [] ++ [v]) := by
  induction m with
  | nil => simp [dictAppend, lookupKey]
  | cons kv rest ih =>
    obtain ⟨k', vs⟩ := kv
    by_cases hk : k' = k
    · subst hk
      simp [dictAppend, lookupKey]
    · simp [dictAppend, lookupKey, hk, ih]

theorem dictAppend_lookup_ne {K V : Type} [DecidableEq K]
    (m : List (K × List V)) (k k' : K) (v : V) (h : k' ≠ k) :
    lookupKey k' (dictAppend m k v) = lookupKey k' m := by
  induction m with
  | nil => simp [dictAppend, lookupKey, Ne.symm h]
  | cons kv rest ih =>
    obtain ⟨k'', vs⟩ := kv
    by_cases hk : k'' = k
    · subst hk
      simp [dictAppend, lookupKey, Ne.symm h]
    · by_cases hk2 : k'' = k'
      · subst hk2
        simp [dictAppend, lookupKey, hk]
      · simp [dictAppend, lookupKey, hk, hk2, ih]

theorem dictAppend_mem_keys {K V : Type} [DecidableEq K]
    (m : List (K × List V)) (k p : K) (v : V) :
    p ∈ keysOf (dictAppend m k v) ↔ p ∈ keysOf m ∨ p = k := by
  induction m with
  | nil => simp [dictAppend, keysOf]
  | cons kv rest ih =>
    obtain ⟨k', vs⟩ := kv
    by_cases hk : k' = k
    · subst hk
      simp [dictAppend, keysOf]
      tauto
    · simp only [dictAppend, if_neg hk, keysOf, List.map_cons,
        List.mem_cons] at ih ⊢
      rw [ih]
      tauto

theorem dictAppend_keys_nodup {K V : Type} [DecidableEq K]
    (m : List (K × List V)) (k : K) (v : V)
    (h : (keysOf m).Nodup) : (keysOf (dictAppend m k v)).Nodup := by
  induction m with
  | nil => simp [dictAppend, keysOf]
  | cons kv rest ih =>
    obtain ⟨k', vs⟩ := kv
    simp only [keysOf, List.map_cons, List.nodup_cons] at h
    by_cases hk : k' = k
    · subst hk
      have hd : dictAppend ((k', vs) :: rest) k' v = (k', vs ++ [v]) :: rest := by
        simp [dictAppend]
      rw [hd]
      simp only [keysOf, List.map_cons, List.nodup_cons]
      exact ⟨by simpa [keysOf] using h.1, by simpa [keysOf] using h.2⟩
    · simp only [dictAppend, if_neg hk, keysOf, List.map_cons,
        List.nodup_cons]
      constructor
      · intro hmem
        rcases (dictAppend_mem_keys rest k k' v).mp (by
            simpa [keysOf] using hmem) with hin | heq
        · exact h.1 (by simpa [keysOf] using hin)
        · exact hk heq
      · exact by simpa [keysOf] using ih (by simpa [keysOf] using h.2)

theorem unitsFor_cons (p : String × String) (r : Entry)
    (rest : List Entry) :
    unitsFor p (r :: rest) =
      if (r.1, r.2.1) = p then r.2.2 :: unitsFor p rest
      else unitsFor p rest := by
  by_cases h : (r.1, r.2.1) = p <;> simp [unitsFor, List.filter_cons, h]

theorem saveGroupFrom_lookup_some :
    ∀ (rows : List Entry) (m : List ((String × String) × List String))
      (p : String × String) (vs : List String),
      lookupKey p m = some vs →
      lookupKey p (saveGroupFrom m rows) = some (vs ++ unitsFor p rows) := by
  intro rows
  induction rows with
  | nil =>
    intro m p vs h
    simpa [saveGroupFrom, unitsFor] using h
  | cons r rest ih =>
    intro m p vs h
    rw [saveGroupFrom, unitsFor_cons]
    by_cases hk : (r.1, r.2.1) = p
    · rw [if_pos hk]
      have hl : lookupKey p (dictAppend m (r.1, r.2.1) r.2.2) =
          some (vs ++ [r.2.2]) := by
        rw [hk, dictAppend_lookup_self, h]
        rfl
      rw [ih _ p (vs ++ [r.2.2]) hl]
      simp
    · rw [if_neg hk]
      have hl : lookupKey p (dictAppend m (r.1, r.2.1) r.2.2) = some vs := by
        rw [dictAppend_lookup_ne _ _ _ _ (fun hc => hk hc.symm)]
        exact h
      exact ih _ p vs hl

theorem saveGroupFrom_lookup_none :
    ∀ (rows : List Entry) (m : List ((String × String) × List String))
      (p : String × String),
      lookupKey p m = none →
      lookupKey p (saveGroupFrom m rows) =
        if unitsFor p rows = [] then none else some (unitsFor p rows) := by
  intro rows
  induction rows with
  | nil =>
    intro m p h
    simpa [saveGroupFrom, unitsFor] using h
  | cons r rest ih =>
    intro m p h
    rw [saveGroupFrom, unitsFor_cons]
    by_cases hk : (r.1, r.2.1) = p
    · rw [if_pos hk]
      have hl : lookupKey p (dictAppend m (r.1, r.2.1) r.2.2) =
          some [r.2.2] := by
        rw [hk, dictAppend_lookup_self, h]
        rfl
      rw [saveGroupFrom_lookup_some rest _ p [r.2.2] hl]
      simp
    · rw [if_neg hk]
      have hl : lookupKey p (dictAppend m (r.1, r.2.1) r.2.2) = none := by
        rw [dictAppend_lookup_ne _ _ _ _ (fun hc => hk hc.symm)]
        exact h
      exact ih _ p hl

theorem saveGroupFrom_keys_nodup :
    ∀ (rows : List Entry) (m : List ((String × String) × List String)),
      (keysOf m).Nodup → (keysOf (saveGroupFrom m rows)).Nodup := by
  intro rows
  induction rows with
  | nil => intro m h; exact h
  | cons r rest ih =>
    intro m h
    exact ih _ (dictAppend_keys_nodup m (r.1, r.2.1) r.2.2 h)

theorem saveGroupFrom_mem_keys :
    ∀ (rows : List Entry) (m : List ((String × String) × List String))
      (p : String × String),
      p ∈ keysOf (saveGroupFrom m rows) ↔
        p ∈ keysOf m ∨ unitsFor p rows ≠ [] := by
  intro rows
  induction rows with
  | nil =>
    intro m p
    simp [saveGroupFrom, unitsFor]
  | cons r rest ih =>
    intro m p
    rw [saveGroupFrom, ih, dictAppend_mem_keys, unitsFor_cons]
    by_cases hk : (r.1, r.2.1) = p
    · simp [hk]
    · simp only [if_neg hk]
      constructor
      · rintro ((hin | heq) | hne)
        · exact Or.inl hin
        · exact absurd heq.symm hk
        · exact Or.inr hne
      · rintro (hin | hne)
        · exact Or.inl (Or.inl hin)
        · exact Or.inr hne

/-- C9: `save_csv` groups the selected rows by the (scene, mode) pair:
the emitted table has pairwise-distinct keys (exactly one row per
distinct pair), a pair occurs exactly when some input row carries it,
the row of a pair holds precisely that pair's unit refs in first-seen
input order (so two same-pair groups with disjoint unit lists merge into
one row holding the union in order), and each emitted CSV row is the
scene path, the lowercased mode, then the unit refs. -/
theorem c9_save_groups_by_pair (rows : List Entry) :
    (keysOf (saveGroup rows)).Nodup ∧
    (∀ p : String × String,
      p ∈ keysOf (saveGroup rows) ↔ unitsFor p rows ≠ []) ∧
    (∀ (p : String × String) (vs : List String),
      lookupKey p (saveGroup rows) = some vs → vs = unitsFor p rows) ∧
    saveRows rows =
      (saveGroup rows).map (fun kv => kv.1.1 :: pyLower kv.1.2 :: kv.2) := by
  refine ⟨?_, ?_, ?_, rfl⟩
  · exact saveGroupFrom_keys_nodup rows [] (by simp [keysOf])
  · intro p
    rw [saveGroup, saveGroupFrom_mem_keys]
    simp [keysOf]
  · intro p vs h
    rw [saveGroup, saveGroupFrom_lookup_none rows [] p (by rfl)] at h
    by_cases hu : unitsFor p rows = []
    · rw [if_pos hu] at h
      exact absurd h (by simp)
    · rw [if_neg hu] at h
      exact (Option.some_inj.mp h).symm

/-- Witness for C9: two rows for the same scene and mode with disjoint
unit refs merge into one row holding both refs in first-seen order. -/
theorem c9_save_groups_by_pair_witness :
    ["/a", "/b"] = unitsFor ("s.hip", "Parallel")
      [("s.hip", "Parallel", "/a"), ("s.hip", "Parallel", "/b")] :=
  (c9_save_groups_by_pair
    [("s.hip", "Parallel", "/a"), ("s.hip", "Parallel", "/b")]).2.2.1
    ("s.hip", "Parallel") ["/a", "/b"] (by decide)

end VJPipeline
